import Mathlib

/-!
Verification of the `human-chrono-parser` repository: a shallow embedding of
its expression model, its resolver (`HumanDateExpr::relative_to`, built on
chrono `NaiveDate` day arithmetic), and its winnow-based Brazilian-Portuguese
grammar, scanner (`extract_all`) and whole-input parser (`parse`).

Dates are represented by their day number (rata die, day 0 = 1970-01-01), the
standard proleptic Gregorian correspondence.  chrono's `NaiveDate` is limited
to years -262144..=262143; `checked_add_days` succeeds exactly when the result
stays inside that range, and the library code unwraps that `Option`, so an
out-of-range addition is a panic.  The resolver therefore returns one of three
outcomes: a date, `unresolvable` (Rust `None`), or `panic` (a failed `unwrap`).
-/

namespace HumanChrono

/-- chrono `Weekday` (Mon..Sun). -/
inductive Weekday
  | mon | tue | wed | thu | fri | sat | sun
deriving DecidableEq

/-- chrono `Weekday::num_days_from_monday`: Mon=0 .. Sun=6. -/
def num_days_from_monday : Weekday → Nat
  | .mon => 0 | .tue => 1 | .wed => 2 | .thu => 3 | .fri => 4 | .sat => 5 | .sun => 6

/-- chrono `Weekday::number_from_sunday`: Sun=1, Mon=2, .. Sat=7. -/
def number_from_sunday : Weekday → Nat
  | .mon => 2 | .tue => 3 | .wed => 4 | .thu => 5 | .fri => 6 | .sat => 7 | .sun => 1

/-- chrono `Weekday::num_days_from_sunday`: Sun=0, Mon=1, .. Sat=6 (the
numbering the spec calls `days_from_sunday`). -/
def num_days_from_sunday : Weekday → Nat
  | .mon => 1 | .tue => 2 | .wed => 3 | .thu => 4 | .fri => 5 | .sat => 6 | .sun => 0

/-- chrono `Month`. -/
inductive Month
  | january | february | march | april | may | june
  | july | august | september | october | november | december
deriving DecidableEq

/-- chrono `Month::number_from_month`: 1..12. -/
def number_from_month : Month → Nat
  | .january => 1 | .february => 2 | .march => 3 | .april => 4
  | .may => 5 | .june => 6 | .july => 7 | .august => 8
  | .september => 9 | .october => 10 | .november => 11 | .december => 12

/-- `Ordinal` from src/lib.rs. -/
inductive Ordinal
  | first | second | third | fourth | fifth
deriving DecidableEq

/-- `Ordinal::as_number` from src/lib.rs. -/
def Ordinal.as_number : Ordinal → Nat
  | .first => 1 | .second => 2 | .third => 3 | .fourth => 4 | .fifth => 5

/-- `HumanDateKeyword` from src/lib.rs. -/
inductive HumanDateKeyword
  | today | tomorrow | afterTomorrow
deriving DecidableEq

/-- `HumanDateExpr` from src/lib.rs (`InNDays` carries a `u64`). -/
inductive HumanDateExpr
  | keyword (k : HumanDateKeyword)
  | inNDays (n : Nat)
  | thisWeekWeekday (w : Weekday)
  | nextWeekWeekday (w : Weekday)
  | ordinalWeekdayOfMonth (o : Ordinal) (w : Weekday) (m : Month)
deriving DecidableEq

/-- Proleptic Gregorian leap year (chrono's rule). -/
def isLeap (y : Int) : Bool :=
  y % 4 == 0 && (y % 100 != 0 || y % 400 == 0)

/-- Number of days in month `m` (1..12) of year `y`. -/
def daysInMonth (y : Int) (m : Nat) : Nat :=
  match m with
  | 1 => 31 | 2 => if isLeap y then 29 else 28 | 3 => 31 | 4 => 30
  | 5 => 31 | 6 => 30 | 7 => 31 | 8 => 31 | 9 => 30 | 10 => 31
  | 11 => 30 | 12 => 31 | _ => 0

/-- Day number of the civil date `(y, m, d)`: days since 1970-01-01, the
standard `days_from_civil` computation.  Divisions are by positive constants
and Lean's `Int` division is floor division, which is exactly the intended
semantics (the C original emulates floor division with adjust-then-truncate). -/
def days_from_civil (y : Int) (m : Nat) (d : Nat) : Int :=
  let y' : Int := if m ≤ 2 then y - 1 else y
  let era : Int := y' / 400
  let yoe : Int := y' - era * 400
  let mp : Nat := if 2 < m then m - 3 else m + 9
  let doy : Int := (153 * (mp : Int) + 2) / 5 + (d : Int) - 1
  let doe : Int := yoe * 365 + yoe / 4 - yoe / 100 + doy
  era * 146097 + doe - 719468

/-- Inverse of `days_from_civil` (the standard `civil_from_days` computation),
returning `(year, month, day)`. -/
def civil_from_days (z0 : Int) : Int × Nat × Nat :=
  let z : Int := z0 + 719468
  let era : Int := z / 146097
  let doe : Int := z - era * 146097
  let yoe : Int := (doe - doe / 1460 + doe / 36524 - doe / 146096) / 365
  let y : Int := yoe + era * 400
  let doy : Int := doe - (365 * yoe + yoe / 4 - yoe / 100)
  let mp : Int := (5 * doy + 2) / 153
  let d : Int := doy - (153 * mp + 2) / 5 + 1
  let m : Int := if mp < 10 then mp + 3 else mp - 9
  (if m ≤ 2 then y + 1 else y, m.toNat, d.toNat)

/-- chrono `NaiveDate::year()` of a day number. -/
def yearOf (rd : Int) : Int := (civil_from_days rd).1

/-- chrono `MIN_YEAR`. -/
def MIN_YEAR : Int := -262144
/-- chrono `MAX_YEAR`. -/
def MAX_YEAR : Int := 262143
/-- Day number of `NaiveDate::MIN` (January 1, -262144). -/
def minRD : Int := days_from_civil MIN_YEAR 1 1
/-- Day number of `NaiveDate::MAX` (December 31, 262143). -/
def maxRD : Int := days_from_civil MAX_YEAR 12 31

/-- Weekday from a Monday-based index in `[0, 7)`. -/
def ofMondayIdx (i : Int) : Weekday :=
  if i = 0 then .mon else if i = 1 then .tue else if i = 2 then .wed
  else if i = 3 then .thu else if i = 4 then .fri else if i = 5 then .sat
  else .sun

/-- chrono `NaiveDate::weekday()`: day 0 (1970-01-01) is a Thursday. -/
def weekdayOf (rd : Int) : Weekday := ofMondayIdx ((rd + 3) % 7)

/-- chrono `NaiveDate::checked_add_days`: `Some` exactly when the result is a
representable `NaiveDate`. -/
def checked_add_days (rd : Int) (n : Nat) : Option Int :=
  if minRD ≤ rd + n ∧ rd + n ≤ maxRD then some (rd + n) else none

/-- chrono `NaiveDate::from_ymd_opt`. -/
def from_ymd_opt (y : Int) (m : Nat) (d : Nat) : Option Int :=
  if MIN_YEAR ≤ y ∧ y ≤ MAX_YEAR ∧ 1 ≤ m ∧ m ≤ 12 ∧ 1 ≤ d ∧ d ≤ daysInMonth y m then
    some (days_from_civil y m d)
  else none

/-- chrono `NaiveDate::from_weekday_of_month_opt`. -/
def from_weekday_of_month_opt (y : Int) (m : Nat) (w : Weekday) (n : Nat) : Option Int :=
  if n = 0 then none
  else
    match from_ymd_opt y m 1 with
    | none => none
    | some firstRd =>
      let first := weekdayOf firstRd
      let firstToDow := (7 + num_days_from_monday w - num_days_from_monday first) % 7
      let day := (n - 1) * 7 + firstToDow + 1
      from_ymd_opt y m day

/-- Outcome of `HumanDateExpr::relative_to`: `date` for `Some(date)`,
`unresolvable` for `None`, `panic` for a failed `unwrap` on
`checked_add_days`. -/
inductive Resolved
  | date (rd : Int)
  | unresolvable
  | panic
deriving DecidableEq

/-- `Some(now.checked_add_days(Days::new(n)).unwrap())` from src/lib.rs. -/
def unwrapAdd (now : Int) (n : Nat) : Resolved :=
  match checked_add_days now n with
  | some d => .date d
  | none => .panic

/-- The offset `let n = (7 - now.weekday().number_from_sunday() +
weekday.number_from_sunday()) % 7` from `relative_to` (u32 arithmetic;
`number_from_sunday` is in 1..=7 so the subtraction cannot underflow). -/
def this_week_offset (now : Int) (w : Weekday) : Nat :=
  (7 - number_from_sunday (weekdayOf now) + number_from_sunday w) % 7

/-- `HumanDateExpr::relative_to` from src/lib.rs. -/
def relative_to (e : HumanDateExpr) (now : Int) : Resolved :=
  match e with
  | .keyword .today => .date now
  | .keyword .tomorrow => unwrapAdd now 1
  | .keyword .afterTomorrow => unwrapAdd now 2
  | .inNDays n => unwrapAdd now n
  | .thisWeekWeekday w => unwrapAdd now (this_week_offset now w)
  | .nextWeekWeekday w => unwrapAdd now (7 + this_week_offset now w)
  | .ordinalWeekdayOfMonth o w m =>
    match from_weekday_of_month_opt (yearOf now) (number_from_month m) w o.as_number with
    | some d => .date d
    | none => .unresolvable

/-! ### The winnow combinators used by the grammars

A parser consumes characters from the front of the input; `none` is a
backtracking failure (none of the combinators these grammars use emit winnow
"cut" errors, so every failure backtracks).  Rust `&str` streams advance one
`char` at a time, so the input is a `List Char`. -/

/-- A winnow parser: on success, the produced value and the remaining input. -/
def Parser (α : Type) : Type := List Char → Option (α × List Char)

/-- A string literal used as a parser (winnow tag on `&str`). -/
def tag (t : String) : Parser Unit := fun s =>
  if t.toList.isPrefixOf s then some ((), s.drop t.toList.length) else none

/-- winnow `alt`: ordered choice, backtracking to the start on each failure. -/
def alt {α : Type} : List (Parser α) → Parser α
  | [] => fun _ => none
  | p :: ps => fun s =>
    match p s with
    | some r => some r
    | none => alt ps s

/-- winnow `.value(v)`. -/
def pvalue {α β : Type} (v : α) (p : Parser β) : Parser α := fun s =>
  match p s with
  | some (_, rest) => some (v, rest)
  | none => none

/-- winnow `.map(f)`. -/
def pmap {α β : Type} (f : α → β) (p : Parser α) : Parser β := fun s =>
  match p s with
  | some (a, rest) => some (f a, rest)
  | none => none

/-- winnow tuple sequencing. -/
def pthen {α β : Type} (p : Parser α) (q : Parser β) : Parser (α × β) := fun s =>
  match p s with
  | some (a, rest) =>
    match q rest with
    | some (b, rest2) => some ((a, b), rest2)
    | none => none
  | none => none

/-- winnow `opt`: on failure succeeds consuming nothing. -/
def opt {α : Type} (p : Parser α) : Parser (Option α) := fun s =>
  match p s with
  | some (a, rest) => some (some a, rest)
  | none => some (none, s)

/-- winnow `ascii::space1`: one or more spaces or tabs. -/
def space1 : Parser Unit := fun s =>
  if (s.takeWhile (fun c => c == ' ' || c == '\t')).isEmpty then none
  else some ((), s.dropWhile (fun c => c == ' ' || c == '\t'))

/-- winnow `ascii::digit1`: one or more ASCII digits. -/
def digit1 : Parser (List Char) := fun s =>
  if (s.takeWhile Char.isDigit).isEmpty then none
  else some (s.takeWhile Char.isDigit, s.dropWhile Char.isDigit)

/-! ### The Brazilian Portuguese grammar (src/locales/pt_br.rs) -/

/-- `keyword` from pt_br.rs. -/
def keyword : Parser HumanDateKeyword :=
  alt [pvalue .today (tag "hoje"),
       pvalue .tomorrow (tag "amanhã"),
       pvalue .afterTomorrow (tag "depois de amanhã")]

/-- `number` from pt_br.rs.  The first branch is `digit1.try_map(FromStr)`
into a `u64`: it fails (backtracks) when the digit string overflows `u64`. -/
def number : Parser Nat :=
  alt [fun s =>
        match digit1 s with
        | some (ds, rest) =>
          let v := ds.foldl (fun a c => a * 10 + (c.toNat - 48)) 0
          if v < 18446744073709551616 then some (v, rest) else none
        | none => none,
       pvalue 17 (tag "dezessete"),
       pvalue 16 (tag "dezesseis"),
       pvalue 19 (tag "dezenove"),
       pvalue 14 (alt [tag "quatorze", tag "catorze"]),
       pvalue 18 (tag "dezoito"),
       pvalue 15 (tag "quinze"),
       pvalue 20 (tag "vinte"),
       pvalue 13 (tag "treze"),
       pvalue 4 (tag "quatro"),
       pvalue 3 (tag "três"),
       pvalue 11 (tag "onze"),
       pvalue 12 (tag "doze"),
       pvalue 5 (tag "cinco"),
       pvalue 7 (tag "sete"),
       pvalue 6 (tag "seis"),
       pvalue 8 (tag "oito"),
       pvalue 9 (tag "nove"),
       pvalue 2 (tag "dois"),
       pvalue 10 (tag "dez"),
       pvalue 1 (tag "um")]

/-- `weekday` from pt_br.rs (the lexicon table of weekday literals, longer
variants listed before their prefixes). -/
def weekday : Parser Weekday :=
  alt [pvalue .mon (alt [tag "segunda-feira", tag "segunda feira", tag "segunda",
                         tag "seg.", tag "seg"]),
       pvalue .tue (alt [tag "terça-feira", tag "terca-feira", tag "terça feira",
                         tag "terca feira", tag "terça", tag "terca", tag "ter.", tag "ter"]),
       pvalue .wed (alt [tag "quarta-feira", tag "quarta feira", tag "quarta",
                         tag "qua.", tag "qua"]),
       pvalue .thu (alt [tag "quinta-feira", tag "quinta feira", tag "quinta",
                         tag "qui.", tag "qui"]),
       pvalue .fri (alt [tag "sexta-feira", tag "sexta feira", tag "sexta",
                         tag "sex.", tag "sex"]),
       pvalue .sat (alt [tag "sábado", tag "sabado", tag "sáb.", tag "sab.",
                         tag "sáb", tag "sab"]),
       pvalue .sun (alt [tag "domingo", tag "dom.", tag "dom"])]

/-- `month` from pt_br.rs (including its duplicated "maio" literal). -/
def month : Parser Month :=
  alt [pvalue .january (alt [tag "janeiro", tag "jan.", tag "jan"]),
       pvalue .february (alt [tag "fevereiro", tag "fev.", tag "fev"]),
       pvalue .march (alt [tag "março", tag "marco", tag "mar.", tag "mar"]),
       pvalue .april (alt [tag "abril", tag "abr.", tag "abr"]),
       pvalue .may (alt [tag "maio", tag "mai.", tag "maio"]),
       pvalue .june (alt [tag "junho", tag "jun.", tag "jun"]),
       pvalue .july (alt [tag "julho", tag "jul.", tag "jul"]),
       pvalue .august (alt [tag "agosto", tag "ago.", tag "ago"]),
       pvalue .september (alt [tag "setembro", tag "set.", tag "set"]),
       pvalue .october (alt [tag "outubro", tag "out.", tag "out"]),
       pvalue .november (alt [tag "novembro", tag "nov.", tag "nov"]),
       pvalue .december (alt [tag "dezembro", tag "dez.", tag "dez"])]

/-- `this` from pt_br.rs ("this"-synonyms, `.void()`). -/
def thisWord : Parser Unit :=
  pvalue () (alt [tag "esta", tag "essa", tag "esse", tag "este"])

/-- `next` from pt_br.rs ("next"-synonyms, `.void()`). -/
def nextWord : Parser Unit :=
  pvalue () (alt [tag "próxima", tag "proxima", tag "próximo", tag "proximo",
                  tag "próx.", tag "prox.", tag "próx", tag "prox"])

/-- `ordinal` from pt_br.rs. -/
def ordinal : Parser Ordinal :=
  alt [pvalue .first (alt [tag "primeira", tag "primeiro"]),
       pvalue .second (alt [tag "segunda", tag "segundo"]),
       pvalue .third (alt [tag "terceira", tag "terceiro"]),
       pvalue .fourth (alt [tag "quarta", tag "quarto"]),
       pvalue .fifth (alt [tag "quinta", tag "quinto"])]

/-- `in_n_days` from pt_br.rs: `((daqui|em) space1, number, space1 "dia" opt('s'))`. -/
def in_n_days : Parser Nat :=
  pmap (fun x => x.2.1)
    (pthen (pthen (alt [tag "daqui", tag "em"]) space1)
      (pthen number (pthen space1 (pthen (tag "dia") (opt (tag "s"))))))

/-- `this_week_weekday` from pt_br.rs: `(opt (this space1), weekday)`. -/
def this_week_weekday : Parser Weekday :=
  pmap (fun x => x.2) (pthen (opt (pthen thisWord space1)) weekday)

/-- `next_week_weekday` from pt_br.rs: `(next, space1, weekday)`. -/
def next_week_weekday : Parser Weekday :=
  pmap (fun x => x.2.2) (pthen nextWord (pthen space1 weekday))

/-- `ordinal_weekday_of_month` from pt_br.rs:
`(ordinal, space1, weekday, space1, "de", space1, month)`. -/
def ordinal_weekday_of_month : Parser (Ordinal × Weekday × Month) :=
  pmap (fun x => (x.1, x.2.2.1, x.2.2.2.2.2.2))
    (pthen ordinal (pthen space1 (pthen weekday
      (pthen space1 (pthen (tag "de") (pthen space1 month))))))

/-- `HumanDateParserBrazillianPortugueseParser::parse_next` from pt_br.rs:
the five phrase shapes tried in order. -/
def parse_next_pt_br : Parser HumanDateExpr :=
  alt [pmap .keyword keyword,
       pmap .inNDays in_n_days,
       pmap (fun x => HumanDateExpr.ordinalWeekdayOfMonth x.1 x.2.1 x.2.2)
         ordinal_weekday_of_month,
       pmap .thisWeekWeekday this_week_weekday,
       pmap .nextWeekWeekday next_week_weekday]

/-! ### `parse` and `extract_all` (src/lib.rs) -/

/-- `parse` from src/lib.rs: winnow `Parser::parse` consumes the ENTIRE input
or fails. -/
def parse (q : Parser HumanDateExpr) (s : List Char) : Option HumanDateExpr :=
  match q s with
  | some (e, []) => some e
  | _ => none

/-- winnow `repeat_till(.., any.void(), q)`: try `q`; on failure skip one
character (`any`) and retry; fail when the input is exhausted without a
match. -/
def repeatTill {α : Type} (q : Parser α) : List Char → Option (α × List Char)
  | [] => q []
  | c :: t =>
    match q (c :: t) with
    | some r => some r
    | none => repeatTill q t

/-- winnow `repeat(0.., q)`: collect successive matches of `q` until it fails;
an iteration that succeeds without consuming input is an error (`none`),
winnow's infinite-loop protection.  Structured with explicit fuel so that it
is structurally recursive; every successful iteration consumes at least one
character, so fuel `s.length + 1` (see `repeatAcc`) never runs out. -/
def repeatAccFuel {α : Type} (q : Parser α) : Nat → List Char → Option (List α)
  | 0, _ => none
  | fuel + 1, s =>
    match q s with
    | none => some []
    | some (v, rest) =>
      if rest.length < s.length then
        match repeatAccFuel q fuel rest with
        | some l => some (v :: l)
        | none => none
      else none

/-- winnow `repeat(0.., q)` run with sufficient fuel. -/
def repeatAcc {α : Type} (q : Parser α) (s : List Char) : Option (List α) :=
  repeatAccFuel q (s.length + 1) s

/-- `extract_all` from src/lib.rs: repeatedly skip-and-match over the text;
a scan that ends in error yields `vec![]`. -/
def extract_all {α : Type} (q : Parser α) (s : List Char) : List α :=
  (repeatAcc (repeatTill q) s).getD []

/-! ### Spec-side characterization of "the n-th weekday of a month"

Following the spec's words ("the date of the `ordinal`-th occurrence of
weekday `w` in `month` of the year taken from pivot's own year"), to be
compared with the source-side `from_weekday_of_month_opt`. -/

/-- The days (1-based) of month `m` of year `y` that fall on weekday `w`, in
increasing order. -/
def weekdayDays (y : Int) (m : Nat) (w : Weekday) : List Nat :=
  ((List.range (daysInMonth y m)).map (· + 1)).filter
    (fun d => weekdayOf (days_from_civil y m d) == w)

/-- The `n`-th (1-based) occurrence of weekday `w` in month `m` of year `y`,
if it exists. -/
def nthWeekdayOfMonth (y : Int) (m : Nat) (w : Weekday) (n : Nat) : Option Nat :=
  (weekdayDays y m w)[n - 1]?

/-! ### Shared lemmas -/

theorem unwrapAdd_ne_unresolvable (now : Int) (n : Nat) :
    unwrapAdd now n ≠ .unresolvable := by
  unfold unwrapAdd
  cases checked_add_days now n <;> simp

theorem unwrapAdd_of_le (now : Int) (n : Nat) (h1 : minRD ≤ now)
    (h2 : now + n ≤ maxRD) : unwrapAdd now n = .date (now + n) := by
  have h : minRD ≤ now + (n : Int) ∧ now + (n : Int) ≤ maxRD := ⟨by omega, h2⟩
  unfold unwrapAdd checked_add_days
  rw [if_pos h]

theorem emod7_nonneg (p : Int) : 0 ≤ (p + 3) % 7 :=
  Int.emod_nonneg _ (by norm_num)

theorem emod7_lt (p : Int) : (p + 3) % 7 < 7 :=
  Int.emod_lt_of_pos _ (by norm_num)

theorem ofMondayIdx_eq_iff (i : Int) (w : Weekday) (h0 : 0 ≤ i) (h7 : i < 7) :
    ofMondayIdx i = w ↔ i = num_days_from_monday w := by
  interval_cases i <;> cases w <;> decide

theorem weekdayOf_eq_iff (p : Int) (w : Weekday) :
    weekdayOf p = w ↔ (p + 3) % 7 = num_days_from_monday w := by
  unfold weekdayOf
  exact ofMondayIdx_eq_iff _ w (emod7_nonneg p) (emod7_lt p)

theorem number_from_sunday_weekdayOf (p : Int) :
    number_from_sunday (weekdayOf p) = (((p + 3) % 7).toNat + 1) % 7 + 1 := by
  have h0 := emod7_nonneg p
  have h7 := emod7_lt p
  unfold weekdayOf
  set r := (p + 3) % 7 with hr
  interval_cases r <;> decide

theorem nfs_eq_ndfs (w : Weekday) :
    number_from_sunday w = num_days_from_sunday w + 1 := by
  cases w <;> rfl

theorem ndfs_le (w : Weekday) : num_days_from_sunday w ≤ 6 := by
  cases w <;> decide

/-- The code's offset (via 1-based `number_from_sunday`) equals the spec's
formula written with 0-based `days_from_sunday`. -/
theorem this_week_offset_eq (p : Int) (w : Weekday) :
    this_week_offset p w
      = (7 - num_days_from_sunday (weekdayOf p) + num_days_from_sunday w) % 7 := by
  unfold this_week_offset
  rw [nfs_eq_ndfs, nfs_eq_ndfs]
  have h1 := ndfs_le (weekdayOf p)
  have h2 := ndfs_le w
  omega

/-- Arithmetic characterization of the this-week offset: it is at most 6,
vanishes exactly on the pivot's own weekday, lands on the requested weekday,
and skips no earlier occurrence. -/
theorem this_week_offset_spec (p : Int) (w : Weekday) :
    this_week_offset p w ≤ 6
    ∧ (this_week_offset p w = 0 ↔ weekdayOf p = w)
    ∧ weekdayOf (p + this_week_offset p w) = w
    ∧ ∀ j : Nat, j < this_week_offset p w → weekdayOf (p + j) ≠ w := by
  have h0 := emod7_nonneg p
  have h7 := emod7_lt p
  have hnfs := number_from_sunday_weekdayOf p
  have hw : number_from_sunday w = (num_days_from_monday w + 1) % 7 + 1 := by
    cases w <;> rfl
  have ht : num_days_from_monday w < 7 := by cases w <;> decide
  unfold this_week_offset
  rw [hnfs, hw]
  refine ⟨by omega, ?_, ?_, ?_⟩
  · rw [weekdayOf_eq_iff]
    omega
  · rw [weekdayOf_eq_iff]
    omega
  · intro j hj
    rw [Ne, weekdayOf_eq_iff]
    omega

theorem ndfm_weekdayOf (x : Int) :
    num_days_from_monday (weekdayOf x) = ((x + 3) % 7).toNat := by
  have h0 := emod7_nonneg x
  have h7 := emod7_lt x
  unfold weekdayOf
  set r := (x + 3) % 7 with hr
  interval_cases r <;> decide

theorem one_le_daysInMonth (y : Int) (m : Nat) (h1 : 1 ≤ m) (h2 : m ≤ 12) :
    1 ≤ daysInMonth y m := by
  interval_cases m <;> simp only [daysInMonth] <;> (try split_ifs) <;> omega

theorem days_from_civil_affine (y : Int) (m : Nat) (d : Nat) :
    days_from_civil y m d = days_from_civil y m 0 + d := by
  simp only [days_from_civil]
  split_ifs <;> omega

/-- The elements of `range dim` congruent to `f` mod 7, as an explicit
arithmetic progression. -/
theorem range_filter_mod (dim f : Nat) (hf : f < 7) :
    (List.range dim).filter (fun e => e % 7 == f)
      = (List.range ((dim + 6 - f) / 7)).map (fun k => k * 7 + f) := by
  induction dim with
  | zero =>
    have h : (0 + 6 - f) / 7 = 0 := by omega
    simp [h]
  | succ d ih =>
    rw [List.range_succ, List.filter_append, ih]
    by_cases h : d % 7 = f
    · have hc : (d + 1 + 6 - f) / 7 = (d + 6 - f) / 7 + 1 := by omega
      have hd : (d + 6 - f) / 7 * 7 + f = d := by omega
      rw [hc, List.range_succ, List.map_append]
      simp [h, hd]
    · have hc : (d + 1 + 6 - f) / 7 = (d + 6 - f) / 7 := by omega
      rw [hc]
      simp [h]

/-- `from_weekday_of_month_opt` computes exactly the spec-side n-th occurrence
of weekday `w` in the month. -/
theorem from_weekday_of_month_eq (y : Int) (mo : Nat) (w : Weekday) (n : Nat)
    (hy1 : MIN_YEAR ≤ y) (hy2 : y ≤ MAX_YEAR) (hm1 : 1 ≤ mo) (hm2 : mo ≤ 12)
    (hn1 : 1 ≤ n) :
    from_weekday_of_month_opt y mo w n
      = (nthWeekdayOfMonth y mo w n).map (days_from_civil y mo) := by
  have hn0 : ¬ n = 0 := by omega
  have hdim1 : 1 ≤ daysInMonth y mo := one_le_daysInMonth y mo hm1 hm2
  have ht7 : num_days_from_monday w < 7 := by cases w <;> decide
  have hA0 := emod7_nonneg (days_from_civil y mo 1)
  have hA7 := emod7_lt (days_from_civil y mo 1)
  set A := days_from_civil y mo 1 with hA
  set t := num_days_from_monday w with ht
  set rn := ((A + 3) % 7).toNat with hrn
  have hrn7 : rn < 7 := by omega
  set f := (7 + t - rn) % 7 with hf
  have hf7 : f < 7 := by omega
  -- the filter condition, pointwise, is a mod-7 condition on the day index
  have hpt : ∀ e : Nat, e ∈ List.range (daysInMonth y mo) →
      (weekdayOf (days_from_civil y mo (e + 1)) == w) = (e % 7 == f) := by
    intro e _
    have haff1 := days_from_civil_affine y mo (e + 1)
    have haff0 := days_from_civil_affine y mo 1
    have he : days_from_civil y mo (e + 1) = A + e := by
      rw [hA]
      omega
    rw [he]
    have hiff : weekdayOf (A + (e : Int)) = w ↔ e % 7 = f := by
      rw [weekdayOf_eq_iff]
      omega
    by_cases hc : e % 7 = f
    · simp [hc, hiff.mpr hc]
    · have : ¬ weekdayOf (A + (e : Int)) = w := fun h => hc (hiff.mp h)
      simp [hc, this]
  -- hence the day list is an arithmetic progression
  have hlist : weekdayDays y mo w
      = (List.range ((daysInMonth y mo + 6 - f) / 7)).map (fun k => k * 7 + f + 1) := by
    unfold weekdayDays
    rw [List.filter_map]
    simp only [Function.comp_def]
    rw [List.filter_congr hpt, range_filter_mod _ f hf7, List.map_map]
    rfl
  -- the first weekday of the month, as the code computes it
  have hys : from_ymd_opt y mo 1 = some A := by
    unfold from_ymd_opt
    rw [if_pos ⟨hy1, hy2, hm1, hm2, le_refl 1, hdim1⟩]
  have hfd : (7 + num_days_from_monday w - num_days_from_monday (weekdayOf A)) % 7
      = f := by
    rw [ndfm_weekdayOf]
  unfold from_weekday_of_month_opt nthWeekdayOfMonth
  rw [if_neg hn0, hys]
  simp only [hfd, hlist, List.getElem?_map]
  by_cases hlt : n - 1 < (daysInMonth y mo + 6 - f) / 7
  · rw [List.getElem?_range hlt]
    have hday : (n - 1) * 7 + f + 1 ≤ daysInMonth y mo := by omega
    unfold from_ymd_opt
    rw [if_pos ⟨hy1, hy2, hm1, hm2, by omega, hday⟩]
    simp
  · rw [List.getElem?_eq_none (by simpa using Nat.le_of_not_lt hlt)]
    unfold from_ymd_opt
    rw [if_neg]
    · simp
    · rintro ⟨-, -, -, -, -, hle⟩
      omega

/-! ### Claim theorems -/

/-- Claim C1: resolving `InNDays n` against a pivot yields the date exactly
`n` days after the pivot whenever that date is representable; but for counts
whose sum exceeds the calendar maximum the code does NOT return an
"unresolvable" value — it panics (`unwrap` of `None` from
`checked_add_days`), e.g. at pivot 2024-08-13 with n = 100000000. -/
theorem c1_in_n_days :
    (∀ (p : Int) (n : Nat), minRD ≤ p → n < 18446744073709551616 →
        p + n ≤ maxRD → relative_to (.inNDays n) p = .date (p + n))
    ∧ relative_to (.inNDays 100000000) (days_from_civil 2024 8 13) = .panic := by
  refine ⟨fun p n h1 _ h3 => ?_, by decide⟩
  exact unwrapAdd_of_le p n h1 h3

/-- Witness for the hypotheses of `c1_in_n_days`. -/
theorem c1_in_n_days_witness :
    relative_to (.inNDays 2) (days_from_civil 2024 8 13)
      = .date (days_from_civil 2024 8 13 + 2) :=
  c1_in_n_days.1 _ 2 (by decide) (by decide) (by decide)

/-- Counterexample to claim C2 as stated: at pivot `NaiveDate::MAX` (day
95026601, a Tuesday) resolving `ThisWeekWeekday Mon` does not yield pivot
plus the offset — the unwrapped `checked_add_days` overflows and panics. -/
theorem c2_counterexample :
    relative_to (.thisWeekWeekday .mon) maxRD
        ≠ .date (maxRD + this_week_offset maxRD .mon)
    ∧ relative_to (.thisWeekWeekday .mon) maxRD = .panic := by
  refine ⟨by decide, by decide⟩

/-- Claim C2 (amended: provided the pivot is at least 6 days below the
calendar maximum — otherwise the unwrap panics, see `c2_counterexample`):
resolving `ThisWeekWeekday w` yields pivot plus the offset
`(7 − days_from_sunday(pivot) + days_from_sunday(w)) mod 7`; the offset is in
[0, 6], is 0 exactly when `w` is the pivot's weekday, and otherwise reaches
the next occurrence of `w` (the result has weekday `w` and no earlier day at
or after the pivot does). -/
theorem c2_this_week_weekday (p : Int) (w : Weekday) (h1 : minRD ≤ p)
    (h2 : p + 6 ≤ maxRD) :
    relative_to (.thisWeekWeekday w) p = .date (p + this_week_offset p w)
    ∧ this_week_offset p w
        = (7 - num_days_from_sunday (weekdayOf p) + num_days_from_sunday w) % 7
    ∧ this_week_offset p w ≤ 6
    ∧ (this_week_offset p w = 0 ↔ weekdayOf p = w)
    ∧ weekdayOf (p + this_week_offset p w) = w
    ∧ ∀ j : Nat, j < this_week_offset p w → weekdayOf (p + j) ≠ w := by
  obtain ⟨hle, hiff, hwd, hfirst⟩ := this_week_offset_spec p w
  exact ⟨unwrapAdd_of_le p _ h1 (by omega), this_week_offset_eq p w,
    hle, hiff, hwd, hfirst⟩

/-- Witness for the hypotheses of `c2_this_week_weekday`. -/
theorem c2_this_week_weekday_witness :
    relative_to (.thisWeekWeekday .mon) (days_from_civil 2024 8 13)
      = .date (days_from_civil 2024 8 13
          + this_week_offset (days_from_civil 2024 8 13) .mon) :=
  (c2_this_week_weekday _ .mon (by decide) (by decide)).1

/-- Counterexample to claim C3 as stated: at pivot `NaiveDate::MAX` (a
Tuesday), `ThisWeekWeekday Tue` resolves to the pivot itself but
`NextWeekWeekday Tue` does not equal that date plus 7 days — it panics. -/
theorem c3_counterexample :
    relative_to (.thisWeekWeekday .tue) maxRD = .date maxRD
    ∧ relative_to (.nextWeekWeekday .tue) maxRD ≠ .date (maxRD + 7)
    ∧ relative_to (.nextWeekWeekday .tue) maxRD = .panic := by
  refine ⟨by decide, by decide, by decide⟩

/-- Claim C3 (amended: provided the pivot is at least 13 days below the
calendar maximum — otherwise the unwrap panics, see `c3_counterexample`):
`NextWeekWeekday w` resolves to exactly 7 days after `ThisWeekWeekday w`
(both shown with the shared offset, which is at most 6, so the result is in
[pivot+7, pivot+13]), and on the pivot's own weekday the offset is 0 so the
result is pivot + 7. -/
theorem c3_next_week_weekday (p : Int) (w : Weekday) (h1 : minRD ≤ p)
    (h2 : p + 13 ≤ maxRD) :
    relative_to (.nextWeekWeekday w) p
        = .date (p + this_week_offset p w + 7)
    ∧ relative_to (.thisWeekWeekday w) p = .date (p + this_week_offset p w)
    ∧ this_week_offset p w ≤ 6
    ∧ (weekdayOf p = w → this_week_offset p w = 0) := by
  obtain ⟨hle, hiff, _, _⟩ := this_week_offset_spec p w
  have hnext : relative_to (.nextWeekWeekday w) p
      = .date (p + (7 + this_week_offset p w)) :=
    unwrapAdd_of_le p _ h1 (by omega)
  refine ⟨?_, unwrapAdd_of_le p _ h1 (by omega), hle, fun h => hiff.mpr h⟩
  rw [hnext]
  congr 1
  omega

/-- Witness for the hypotheses of `c3_next_week_weekday`. -/
theorem c3_next_week_weekday_witness :
    relative_to (.nextWeekWeekday .sun) (days_from_civil 2024 8 13)
      = .date (days_from_civil 2024 8 13
          + this_week_offset (days_from_civil 2024 8 13) .sun + 7) :=
  (c3_next_week_weekday _ .sun (by decide) (by decide)).1

/-- Claim C4: `OrdinalWeekdayOfMonth o w m` resolves in the pivot's own
calendar year (the year is taken from the pivot and never advanced or rolled
back); within any representable year it yields exactly the spec-side
`o`-th occurrence of weekday `w` in the month, and `Unresolvable` when the
month has no such occurrence — in particular the fifth Monday of February
2025 (a February with four Mondays) is `Unresolvable`. -/
theorem c4_ordinal_weekday_of_month :
    (∀ (p : Int) (o : Ordinal) (w : Weekday) (mo : Month),
      relative_to (.ordinalWeekdayOfMonth o w mo) p
        = match from_weekday_of_month_opt (yearOf p) (number_from_month mo) w
            o.as_number with
          | some d => .date d
          | none => .unresolvable)
    ∧ (∀ (y : Int) (mo : Month) (w : Weekday) (o : Ordinal),
        MIN_YEAR ≤ y → y ≤ MAX_YEAR →
        from_weekday_of_month_opt y (number_from_month mo) w o.as_number
          = (nthWeekdayOfMonth y (number_from_month mo) w o.as_number).map
              (days_from_civil y (number_from_month mo)))
    ∧ relative_to (.ordinalWeekdayOfMonth .fifth .mon .february)
        (days_from_civil 2025 1 1) = .unresolvable := by
  refine ⟨fun p o w mo => rfl, fun y mo w o h1 h2 => ?_, by decide⟩
  exact from_weekday_of_month_eq y _ w _ h1 h2
    (by cases mo <;> decide) (by cases mo <;> decide) (by cases o <;> decide)

/-- Witness for the hypotheses of `c4_ordinal_weekday_of_month`. -/
theorem c4_ordinal_weekday_of_month_witness :
    from_weekday_of_month_opt 2024 (number_from_month .october) .sun
        (Ordinal.as_number .first)
      = (nthWeekdayOfMonth 2024 (number_from_month .october) .sun
          (Ordinal.as_number .first)).map (days_from_civil 2024 (number_from_month .october)) :=
  c4_ordinal_weekday_of_month.2.1 2024 .october .sun .first (by decide) (by decide)

/-- Claim C5: no expression other than `OrdinalWeekdayOfMonth` can resolve to
the `Unresolvable` outcome: every other branch of `relative_to` returns a date
or panics, never `None`. -/
theorem c5_only_ordinal_unresolvable :
    ∀ (e : HumanDateExpr) (p : Int),
      (∀ o w m, e ≠ .ordinalWeekdayOfMonth o w m) →
      relative_to e p ≠ .unresolvable := by
  intro e p h
  cases e with
  | keyword k =>
    cases k with
    | today => simp [relative_to]
    | tomorrow => exact unwrapAdd_ne_unresolvable p 1
    | afterTomorrow => exact unwrapAdd_ne_unresolvable p 2
  | inNDays n => exact unwrapAdd_ne_unresolvable p n
  | thisWeekWeekday w => exact unwrapAdd_ne_unresolvable p _
  | nextWeekWeekday w => exact unwrapAdd_ne_unresolvable p _
  | ordinalWeekdayOfMonth o w m => exact absurd rfl (h o w m)

/-- Witness for the hypothesis of `c5_only_ordinal_unresolvable`. -/
theorem c5_only_ordinal_unresolvable_witness :
    relative_to (.keyword .today) 0 ≠ .unresolvable :=
  c5_only_ordinal_unresolvable _ 0 (fun _ _ _ h => HumanDateExpr.noConfusion h)

/-- Claim C6: `parse` succeeds exactly when the grammar consumes the entire
input as one phrase; with trailing text ("hoje hoje": the grammar itself
matches a prefix and leaves " hoje") or leading text ("ontem hoje") it
returns a failure value. -/
theorem c6_parse_consumes_all :
    (∀ (q : Parser HumanDateExpr) (s : List Char) (e : HumanDateExpr),
        parse q s = some e ↔ q s = some (e, []))
    ∧ parse_next_pt_br ("hoje hoje".toList) = some (.keyword .today, " hoje".toList)
    ∧ parse parse_next_pt_br ("hoje hoje".toList) = none
    ∧ parse parse_next_pt_br ("ontem hoje".toList) = none := by
  refine ⟨?_, by decide, by decide, by decide⟩
  intro q s e
  unfold parse
  cases h : q s with
  | none => simp
  | some r =>
    obtain ⟨e', rest⟩ := r
    cases rest with
    | nil => simp
    | cons c t => simp

theorem repeatTill_none {α : Type} (q : Parser α) (s : List Char)
    (h : ∀ i, i ≤ s.length → q (s.drop i) = none) : repeatTill q s = none := by
  induction s with
  | nil =>
    have h0 := h 0 (by simp)
    simpa [repeatTill] using h0
  | cons c t ih =>
    have h0 := h 0 (by simp)
    unfold repeatTill
    rw [show (c :: t).drop 0 = c :: t from rfl] at h0
    rw [h0]
    exact ih fun i hi => h (i + 1) (by simpa using hi)

theorem repeatAccFuel_congr {α : Type} (q : Parser α) :
    ∀ (fuel₁ fuel₂ : Nat) (s : List Char), s.length < fuel₁ → s.length < fuel₂ →
      repeatAccFuel q fuel₁ s = repeatAccFuel q fuel₂ s := by
  intro fuel₁
  induction fuel₁ with
  | zero => intro fuel₂ s h1 h2; omega
  | succ f ih =>
    intro fuel₂ s h1 h2
    cases fuel₂ with
    | zero => omega
    | succ f₂ =>
      cases hq : q s with
      | none => simp only [repeatAccFuel, hq]
      | some r =>
        obtain ⟨v, rest⟩ := r
        simp only [repeatAccFuel, hq]
        by_cases hl : rest.length < s.length
        · rw [ih f₂ rest (by omega) (by omega), if_pos hl]
        · simp only [if_neg hl]

/-- Claim C7: `extract_all` never reports an error: when the grammar matches
at no position of the text it returns the empty sequence; each successful
skip-and-match step prepends its expression to the scan of the remaining
text (so matches come in left-to-right order, non-overlapping); and on the
repository's own two-phrase texts it returns exactly the two expressions in
order. -/
theorem c7_extract_all :
    (∀ (q : Parser HumanDateExpr) (s : List Char),
        (∀ i, i ≤ s.length → q (s.drop i) = none) → extract_all q s = [])
    ∧ (∀ (q : Parser HumanDateExpr) (s : List Char) (v : HumanDateExpr)
        (rest : List Char) (l : List HumanDateExpr),
        repeatTill q s = some (v, rest) → rest.length < s.length →
        repeatAcc (repeatTill q) rest = some l →
        extract_all q s = v :: extract_all q rest)
    ∧ extract_all parse_next_pt_br ("hoje meio amanhã".toList)
        = [.keyword .today, .keyword .tomorrow]
    ∧ extract_all parse_next_pt_br ("prefixo hoje meio amanhã sufixo".toList)
        = [.keyword .today, .keyword .tomorrow]
    ∧ extract_all parse_next_pt_br ("nada para ver".toList) = [] := by
  refine ⟨?_, ?_, by decide, by decide, by decide⟩
  · intro q s h
    unfold extract_all repeatAcc
    simp only [repeatAccFuel, repeatTill_none q s h]
    rfl
  · intro q s v rest l h1 h2 h3
    have hs : repeatAcc (repeatTill q) s = some (v :: l) := by
      unfold repeatAcc
      simp only [repeatAccFuel, h1]
      rw [if_pos h2, repeatAccFuel_congr _ _ (rest.length + 1) _ (by omega) (by omega)]
      rw [show repeatAccFuel (repeatTill q) (rest.length + 1) rest
            = repeatAcc (repeatTill q) rest from rfl, h3]
    unfold extract_all
    rw [hs, h3]
    rfl

/-- Witness for the hypotheses of `c7_extract_all`. -/
theorem c7_extract_all_witness :
    extract_all parse_next_pt_br ("zzz".toList) = [] :=
  c7_extract_all.1 parse_next_pt_br _ (by decide)

/-- Claim C8: every Monday literal of the pt-BR lexicon, taken as the entire
input, parses (through the this-week phrase shape) to `ThisWeekWeekday Mon`. -/
theorem c8_monday_literals :
    parse parse_next_pt_br ("segunda-feira".toList) = some (.thisWeekWeekday .mon)
    ∧ parse parse_next_pt_br ("segunda feira".toList) = some (.thisWeekWeekday .mon)
    ∧ parse parse_next_pt_br ("segunda".toList) = some (.thisWeekWeekday .mon)
    ∧ parse parse_next_pt_br ("seg.".toList) = some (.thisWeekWeekday .mon)
    ∧ parse parse_next_pt_br ("seg".toList) = some (.thisWeekWeekday .mon) := by
  refine ⟨by decide, by decide, by decide, by decide, by decide⟩

/-- Claim C9: scanning is not anchored to token boundaries: in "xhoje" the
keyword "hoje" begins in the middle of the word, yet `extract_all` returns
it. -/
theorem c9_mid_word_match :
    extract_all parse_next_pt_br ("xhoje".toList) = [.keyword .today] := by decide

/-- Claim C10: the bare ordinal/weekday homographs parse as weekdays: the
ordinal-weekday-of-month shape (tried earlier) needs a following weekday and
month, fails, and the this-week shape wins. -/
theorem c10_ordinal_weekday_homographs :
    parse parse_next_pt_br ("segunda".toList) = some (.thisWeekWeekday .mon)
    ∧ parse parse_next_pt_br ("quarta".toList) = some (.thisWeekWeekday .wed)
    ∧ parse parse_next_pt_br ("quinta".toList) = some (.thisWeekWeekday .thu) := by
  refine ⟨by decide, by decide, by decide⟩

/-! ### Sanity checks against the repository's own unit tests -/

example : weekdayOf (days_from_civil 2024 8 13) = .tue := by decide

example : relative_to (.keyword .tomorrow) (days_from_civil 2024 8 13)
    = .date (days_from_civil 2024 8 14) := by decide

example : relative_to (.thisWeekWeekday .sun) (days_from_civil 2024 8 13)
    = .date (days_from_civil 2024 8 18) := by decide

example : relative_to (.nextWeekWeekday .mon) (days_from_civil 2024 8 13)
    = .date (days_from_civil 2024 8 26) := by decide

example : relative_to (.ordinalWeekdayOfMonth .second .sun .october)
    (days_from_civil 2024 8 13) = .date (days_from_civil 2024 10 13) := by decide

example : parse parse_next_pt_br ("em dois dias".toList) = some (.inNDays 2) := by decide

example : parse parse_next_pt_br ("daqui 2 dias".toList) = some (.inNDays 2) := by decide

example : parse parse_next_pt_br ("próximo domingo".toList)
    = some (.nextWeekWeekday .sun) := by decide

example : parse parse_next_pt_br ("esta terça".toList)
    = some (.thisWeekWeekday .tue) := by decide

example : parse parse_next_pt_br ("primeiro dom. de setembro".toList)
    = some (.ordinalWeekdayOfMonth .first .sun .september) := by decide

example : parse parse_next_pt_br ("depois de amanhã".toList)
    = some (.keyword .afterTomorrow) := by decide

example : extract_all parse_next_pt_br ("hoje sufixo".toList)
    = [.keyword .today] := by decide

end HumanChrono
